import Mathlib

/-!
Verification of the standalone forward-proxy server (`simple_proxy.py`).

The proxy reads one buffered chunk from an accepted socket, classifies the
request (application endpoints, health check, CONNECT tunnel, plain HTTP
forward) and either answers locally or dials the origin and relays bytes.
Byte strings are modelled as `List Char` (the traffic is ASCII); Python
byte-string primitives (`split`, `find`, `strip`, `lower`, `int`) are
modelled by executable functions below, and the per-connection control flow
of `ProxyServer.handle_client` is modelled as a pure dispatcher together
with trace functions recording the socket operations each path performs.
-/

/-- Model of Python `s.startswith(pat)` on byte strings: `beginsWith pat s`
is `true` when `pat` is an initial segment of `s`. -/
def beginsWith : List Char → List Char → Bool
  | [], _ => true
  | _ :: _, [] => false
  | p :: ps, s :: ss => p == s && beginsWith ps ss

/-- Model of Python `s.find(pat)` on byte strings: index of the first
occurrence of `pat` in `s`, `none` standing for Python's `-1`. -/
def findSub (pat : List Char) : List Char → Option Nat
  | [] => if beginsWith pat [] then some 0 else none
  | a :: rest =>
    if beginsWith pat (a :: rest) then some 0
    else (findSub pat rest).map (· + 1)

/-- Model of Python `pat in s` on byte strings. -/
def containsSub (pat s : List Char) : Bool := (findSub pat s).isSome

/-- Accumulator worker for `splitOnChar`. -/
def splitOnCharAux (c : Char) : List Char → List Char → List (List Char)
  | [], acc => [acc.reverse]
  | a :: rest, acc =>
    if a = c then acc.reverse :: splitOnCharAux c rest []
    else splitOnCharAux c rest (a :: acc)

/-- Model of Python `s.split(sep)` for a one-byte separator (used by the
source on `b'\n'`, `b' '` and `b'?'`): splits at every occurrence, keeping
empty fields. -/
def splitOnChar (c : Char) (l : List Char) : List (List Char) :=
  splitOnCharAux c l []

/-- Fueled worker for `splitOnList`; the fuel is an upper bound on the
number of separator occurrences, so `splitOnList` gives it `l.length`. -/
def splitOnListAux (sep : List Char) : Nat → List Char → List (List Char)
  | 0, l => [l]
  | fuel + 1, l =>
    match findSub sep l with
    | none => [l]
    | some i => l.take i :: splitOnListAux sep fuel (l.drop (i + sep.length))

/-- Model of Python `s.split(sep)` for a multi-byte separator (used by the
source on `'/api/stream/'`). -/
def splitOnList (sep l : List Char) : List (List Char) :=
  if sep = [] then [l] else splitOnListAux sep l.length l

/-- Model of Python `first_line.split(b' ')[1]`: the second
space-delimited field of a request line, `none` when indexing would raise
`IndexError`. -/
def field1 (line : List Char) : Option (List Char) :=
  (splitOnChar ' ' line).get? 1

/-- Model of `request.split(b'\n')[0]`: the bytes of the request up to the
first newline (the request line, with any `'\r'` still attached). -/
def firstLineOf (request : List Char) : List Char :=
  (splitOnChar '\n' request).headD []

/-- ASCII whitespace as stripped by Python `bytes.strip()`. -/
def pyWhite (c : Char) : Bool :=
  c = ' ' || c = '\t' || c = '\n' || c = '\r' || c = '\x0b' || c = '\x0c'

/-- Model of Python `bytes.strip()`: drop ASCII whitespace at both ends. -/
def pyStrip (cs : List Char) : List Char :=
  ((cs.dropWhile pyWhite).reverse.dropWhile pyWhite).reverse

/-- Model of Python `bytes.lower()`: ASCII lower-casing of every byte. -/
def lowerAll (cs : List Char) : List Char := cs.map Char.toLower

/-- Numeric value of a non-empty all-digit byte string, `none` otherwise. -/
def digitsVal (cs : List Char) : Option Nat :=
  if cs ≠ [] ∧ cs.all Char.isDigit then
    some (cs.foldl (fun n c => n * 10 + (c.toNat - 48)) 0)
  else none

/-- Model of Python `int(bytes)` as used on the port slice: optional
surrounding ASCII whitespace, an optional sign, then decimal digits;
`none` stands for the `ValueError` the source lets escape to its
connection-closing handler. (Underscore digit grouping is not modelled.) -/
def pyInt (cs : List Char) : Option Int :=
  match pyStrip cs with
  | '+' :: rest => (digitsVal rest).map (fun n => (n : Int))
  | '-' :: rest => (digitsVal rest).map (fun n => -(n : Int))
  | r => (digitsVal r).map (fun n => (n : Int))

/-- The scheme separator `b'://'` searched for at simple_proxy.py:452. -/
def schemeMark : List Char := [':', '/', '/']

/-- Host/port extraction from the scheme-stripped remainder `temp`
(simple_proxy.py:459-473): find the first `':'` and first `'/'` (no `'/'`
meaning end of string); if no `':'` occurs, or the `'/'` comes first, the
host is everything before the `'/'` and the port defaults to 80; otherwise
the host is everything before the `':'` and the port is `int` of the bytes
between `':'` and `'/'`, `none` modelling the `ValueError` escape. -/
def parse_host_port (temp : List Char) : Option (List Char × Int) :=
  let wsPos : Nat :=
    match findSub ['/'] temp with
    | none => temp.length
    | some i => i
  match findSub [':'] temp with
  | none => some (temp.take wsPos, 80)
  | some pp =>
    if wsPos < pp then some (temp.take wsPos, 80)
    else
      match pyInt ((temp.drop (pp + 1)).take (wsPos - pp - 1)) with
      | none => none
      | some p => some (temp.take pp, p)

/-- Address extraction from the URL field (simple_proxy.py:451-473): strip
everything up to and including the first `b'://'` if present, then parse
host and port from the remainder. -/
def extract_address (url : List Char) : Option (List Char × Int) :=
  match findSub schemeMark url with
  | none => parse_host_port url
  | some i => parse_host_port (url.drop (i + 3))

/-- The address resolver applied to a whole request line: take the second
space-delimited field (`IndexError` → `none`) and extract host and port
from it. -/
def resolve_target (line : List Char) : Option (List Char × Int) :=
  match field1 line with
  | none => none
  | some url => extract_address url

example : resolve_target "CONNECT example.com:443 HTTP/1.1".toList
    = some ("example.com".toList, 443) := by decide

example : resolve_target "GET http://example.com:8080/path HTTP/1.1".toList
    = some ("example.com".toList, 8080) := by decide

example : resolve_target "GET http://example.com/path HTTP/1.1".toList
    = some ("example.com".toList, 80) := by decide

example : resolve_target "GET /CONNECT HTTP/1.1".toList = some ([], 80) := by decide

example : resolve_target "CONNECT example.com:abc HTTP/1.1".toList = none := by decide

example : resolve_target "CONNECT".toList = none := by decide

/-- Substring of a header line after its first `':'`, modelling
`line.split(b':', 1)[1]` (simple_proxy.py:408); the `none` fallback is
unreachable at its call site because the line is checked to start with
`host:` first. -/
def afterFirstColon (l : List Char) : List Char :=
  match findSub [':'] l with
  | none => []
  | some i => l.drop (i + 1)

/-- Scan of the buffered request lines for the `Host` header
(simple_proxy.py:404-409): the first line whose lower-cased bytes start
with `host:` yields everything after its first `':'`, stripped and
lower-cased; scanning past the end leaves the initial `b''`. -/
def scanHostLines : List (List Char) → List Char
  | [] => []
  | l :: rest =>
    if beginsWith "host:".toList (lowerAll l) then
      lowerAll (pyStrip (afterFirstColon l))
    else scanHostLines rest

/-- The `Host` header value the health-check branch extracts from the raw
request bytes. -/
def scanHostHeader (request : List Char) : List Char :=
  scanHostLines (splitOnChar '\n' request)

/-- The health-check host test (simple_proxy.py:412-413): the extracted
`Host` header is matched by substring against `localhost`, `127.`, the
hard-coded port text `:2082`, and the proxy domain names. -/
def hostMatch (h : List Char) : Bool :=
  containsSub "localhost".toList h || containsSub "127.".toList h ||
    containsSub ":2082".toList h ||
    containsSub "servx.pgwiz.us.kg".toList h || containsSub "pgwiz".toList h

/-- The HTML status page of the health-check branch
(simple_proxy.py:426-444), up to the interpolated recent-log text. -/
def healthHtmlPre : String :=
  "<!DOCTYPE html>\n<html><head><meta charset=\"UTF-8\"><title>Proxy Server</title>\n<style>\nbody \x7b font-family: monospace; background: #1a1a2e; color: #0f0; padding: 20px; \x7d\nh1 \x7b color: #4ade80; \x7d\n.status \x7b color: #4ade80; font-size: 24px; margin: 20px 0; \x7d\npre \x7b background: #0d0d1a; padding: 15px; border-radius: 8px; overflow-x: auto; max-height: 400px; overflow-y: auto; \x7d\nbutton \x7b background: #4ade80; color: #000; border: none; padding: 10px 20px; border-radius: 5px; cursor: pointer; margin: 5px; \x7d\nbutton:hover \x7b background: #22c55e; \x7d\n</style></head><body>\n<h1>🌐 Proxy Server</h1>\n<div class=\"status\">✅ Proxy Server is Alive</div>\n<p><strong>Port:</strong> 2082 | <strong>Logs:</strong> /root/proxyLogs/</p>\n<button onclick=\"navigator.clipboard.writeText(\x27http://servx.pgwiz.us.kg:2082\x27)\">📋 Copy Proxy URL</button>\n<button onclick=\"location.reload()\">🔄 Refresh</button>\n<h3>📜 Recent Logs (Last 50)</h3>\n<pre id=\"logs\">"

/-- The HTML status page after the interpolated recent-log text. -/
def healthHtmlPost : String :=
  "</pre>\n<script>setTimeout(()=>location.reload(), 10000);</script>\n</body></html>"

/-- The full HTML body of the health-check response for a given recent-log
text (the source reads the last 50 log lines from disk at request time). -/
def healthHtml (logContent : String) : String :=
  healthHtmlPre ++ logContent ++ healthHtmlPost

/-- The exact bytes the health-check branch sends
(simple_proxy.py:446-447): a `200 OK` with `Content-Type: text/html` and
the HTML status page as body. -/
def healthResponse (logContent : String) : String :=
  "HTTP/1.1 200 OK\r\nContent-Type: text/html\r\nConnection: close\r\n\r\n" ++
    healthHtml logContent

/-- Classification of what `ProxyServer.handle_client` does with one
accepted connection, in source order: empty read; the three application
endpoints (whose bodies run yt-dlp or an upstream relay and always return,
`branchClose` being the silent close their exception handlers perform);
the matched health check; the silent close of the top-level exception
handler (`IndexError` from a missing URL field or `ValueError` from an
unparsable port); and the two generic proxy paths. -/
inductive ClientAction where
  | emptyClose
  | branchClose
  | apiStream (videoId : List Char)
  | streamRelay (path : List Char)
  | ytdlpServe (path : List Char)
  | health (hostHeader : List Char)
  | parseClose
  | tunnel (host : List Char) (port : Int)
  | httpForward (host : List Char) (port : Int)
deriving DecidableEq

/-- The dispatcher of `ProxyServer.handle_client` (simple_proxy.py:147-484)
as a pure function of the received bytes: each `if b'...' in first_line`
test and the parsing steps are modelled exactly; the bodies of the three
application endpoints are abstracted to their classification because every
one of their control paths sends (or closes) locally and returns before the
generic address extraction at line 451 is reached. -/
def handleClient (request : List Char) : ClientAction :=
  if request = [] then .emptyClose
  else if containsSub "GET /api/stream/".toList (firstLineOf request) then
    match field1 (firstLineOf request) with
    | none => .branchClose
    | some path =>
      match (splitOnList "/api/stream/".toList path).get? 1 with
      | none => .branchClose
      | some rest => .apiStream ((splitOnChar '?' rest).headD [])
  else if containsSub "GET /stream".toList (firstLineOf request) then
    match field1 (firstLineOf request) with
    | none => .branchClose
    | some path => .streamRelay path
  else if containsSub "GET /ytdlp".toList (firstLineOf request) then
    match field1 (firstLineOf request) with
    | none => .branchClose
    | some path => .ytdlpServe path
  else if (containsSub "GET /health".toList (firstLineOf request)
        || containsSub "GET / HTTP".toList (firstLineOf request))
      && hostMatch (scanHostHeader request) then
    .health (scanHostHeader request)
  else
    match resolve_target (firstLineOf request) with
    | none => .parseClose
    | some (host, port) =>
      if containsSub "CONNECT".toList (firstLineOf request) then .tunnel host port
      else .httpForward host port

example : handleClient "GET /health HTTP/1.1\r\nHost: localhost:6178\r\n\r\n".toList
    = .health "localhost:6178".toList := by decide

example : handleClient "GET /CONNECT HTTP/1.1\r\n\r\n".toList = .tunnel [] 80 := by decide

example : handleClient "CONNECT example.com:443 HTTP/1.1\r\nHost: x\r\n\r\n".toList
    = .tunnel "example.com".toList 443 := by decide

example : handleClient "GET /health HTTP/1.1\r\nHost: example.com:6178\r\n\r\n".toList
    = .httpForward [] 80 := by decide

example : handleClient "GET /ytdlp?id=abc HTTP/1.1\r\n\r\n".toList
    = .ytdlpServe "/ytdlp?id=abc".toList := by decide

example : handleClient "GET /api/stream/abc123?q=1 HTTP/1.1\r\n\r\n".toList
    = .apiStream "abc123".toList := by decide

example : handleClient "PUT /x GET /api/stream/y HTTP/1.1\r\n\r\n".toList
    = .branchClose := by decide

/-- The two ends of a relay pair: the accepted client socket and the
outbound remote socket. -/
inductive Side where
  | client
  | remote
deriving DecidableEq

/-- The opposite socket of a relay pair (`other` in forward_data). -/
def Side.other : Side → Side
  | .client => .remote
  | .remote => .client

/-- Socket operations a connection handler performs, as observed from
outside: an attempted outbound dial, bytes written to one side, an
explicit close of one side, and the abstracted local work of the three
application endpoints. -/
inductive SockOp where
  | dial (host : List Char) (port : Int)
  | send (dst : Side) (data : List Char)
  | close (s : Side)
  | localService
deriving DecidableEq

/-- One wake-up of the relay loop (simple_proxy.py:574-589): either the
60-second `select` expires with neither socket readable, or a readable
socket's `recv` returns data, returns zero bytes (peer closed), or the
`recv`/`send` raises (caught by the bare `except`). -/
inductive RelayEvent where
  | timeout
  | eof (s : Side)
  | ioError
  | data (s : Side) (d : List Char)
deriving DecidableEq

/-- Whether a relay event is a successful data read. -/
def isData : RelayEvent → Bool
  | .data _ _ => true
  | _ => false

/-- Why the relay loop returned. -/
inductive RelayExit where
  | peerClosed
  | idleTimeout
  | ioFailure
deriving DecidableEq

/-- The relay loop `ProxyServer.forward_data` (simple_proxy.py:574-589)
over a schedule of readiness events: each data read is written verbatim to
the other socket; the loop returns at the first timeout (`break` out of
the `while`), zero-byte read (`return`), or I/O error (the bare `except:
pass`). It performs no `close` on any path. The returned pair is the list
of socket operations performed and the exit reason (`none` while the
schedule has not yet terminated the loop). -/
def forward_data : List RelayEvent → List SockOp × Option RelayExit
  | [] => ([], none)
  | .timeout :: _ => ([], some .idleTimeout)
  | .eof _ :: _ => ([], some .peerClosed)
  | .ioError :: _ => ([], some .ioFailure)
  | .data s d :: rest =>
    match forward_data rest with
    | (ops, e) => (.send s.other d :: ops, e)

/-- The exact CONNECT success bytes (simple_proxy.py:491). -/
def connectEstablished : String := "HTTP/1.1 200 Connection Established\r\n\r\n"

/-- `ProxyServer.handle_https_tunnel` (simple_proxy.py:486-497): dial the
extracted host/port; on success send the client the exact
`200 Connection Established` bytes and run the relay (no close afterwards);
on a dial failure the `except` closes only the client socket, having sent
nothing. -/
def handle_https_tunnel (host : List Char) (port : Int) (dialOk : Bool)
    (evs : List RelayEvent) : List SockOp :=
  if dialOk then
    .dial host port :: .send .client connectEstablished.toList :: (forward_data evs).1
  else [.dial host port, .close .client]

/-- `ProxyServer.handle_http_request` (simple_proxy.py:499-510): dial the
extracted host/port; on success write the entire originally received
request bytes unmodified to the remote socket and run the relay (no close
afterwards); on a dial failure the `except` closes the client socket and
the already-created remote socket, having sent nothing. -/
def handle_http_request (request host : List Char) (port : Int) (dialOk : Bool)
    (evs : List RelayEvent) : List SockOp :=
  if dialOk then
    .dial host port :: .send .remote request :: (forward_data evs).1
  else [.dial host port, .close .client, .close .remote]

/-- The socket operations `handle_client` performs for one connection,
given the request bytes, the recent-log text the health page would embed,
whether an outbound dial would succeed, and the relay schedule. The three
application endpoints are abstracted to `localService`; all close-only
paths reflect the source's exception handlers. -/
def connectionOps (request : List Char) (logContent : String) (dialOk : Bool)
    (evs : List RelayEvent) : List SockOp :=
  match handleClient request with
  | .emptyClose => [.close .client]
  | .branchClose => [.close .client]
  | .apiStream _ => [.localService]
  | .streamRelay _ => [.localService]
  | .ytdlpServe _ => [.localService]
  | .health _ => [.send .client (healthResponse logContent).toList, .close .client]
  | .parseClose => [.close .client]
  | .tunnel host port => handle_https_tunnel host port dialOk evs
  | .httpForward host port => handle_http_request request host port dialOk evs

/-- Bytes written to one side, concatenated in order, over a trace. -/
def deliveredTo (s : Side) : List SockOp → List Char
  | [] => []
  | .send dst d :: rest =>
    if dst = s then d ++ deliveredTo s rest else deliveredTo s rest
  | _ :: rest => deliveredTo s rest

/-- Bytes one peer produced, concatenated in order, over a schedule. -/
def chunksFrom (s : Side) : List RelayEvent → List Char
  | [] => []
  | .data src d :: rest =>
    if src = s then d ++ chunksFrom s rest else chunksFrom s rest
  | _ :: rest => chunksFrom s rest

example : forward_data [.data .client "ab".toList, .data .remote "c".toList, .eof .client]
    = ([.send .remote "ab".toList, .send .client "c".toList], some .peerClosed) := by decide

example : handle_https_tunnel "example.com".toList 443 false []
    = [.dial "example.com".toList 443, .close .client] := by decide

/-- One entry of the global `ytdlp_logs` list (simple_proxy.py:40): fields
as initialised at the top of `extract_youtube_stream` and updated on each
return path. -/
structure YtLogEntry where
  video_id : String
  timestamp : String
  stdout : String
  stderr : String
  success : Bool
deriving DecidableEq

/-- The successful extraction payload (simple_proxy.py:92-102), with the
fields that come from the yt-dlp JSON. -/
structure StreamResult where
  title : String
  url : String
  thumbnail : String
  duration : String
  uploader : String
  id : String
  format_id : String
  ext : String
deriving DecidableEq

/-- What happened when `extract_youtube_stream` ran yt-dlp: non-zero exit
(simple_proxy.py:68-73), parsed JSON without a `url` (80-85), success
(87-102), `subprocess.TimeoutExpired` (103-109), or any other exception,
including a JSON parse failure (110-116). -/
inductive ExtractOutcome where
  | runFailed (out err : String)
  | noUrl (out err : String)
  | ok (out err : String) (res : StreamResult)
  | timedOut
  | raised (msg : String)
deriving DecidableEq

/-- The append-then-trim step every return path performs
(simple_proxy.py e.g. 70-72): append the entry, then `pop(0)` once when
the length exceeds 10. -/
def appendLog (logs : List YtLogEntry) (e : YtLogEntry) : List YtLogEntry :=
  let l := logs ++ [e]
  if l.length > 10 then l.drop 1 else l

/-- `extract_youtube_stream` (simple_proxy.py:37-116) as a pure function
of the run outcome and the current `ytdlp_logs` value: every return path
builds its log entry from the initial one (37:40) and appends it with the
trim step, returning `none` except on success. -/
def extract_youtube_stream (vid ts : String) (o : ExtractOutcome)
    (logs : List YtLogEntry) : Option StreamResult × List YtLogEntry :=
  match o with
  | .runFailed out err =>
    (none, appendLog logs
      { video_id := vid, timestamp := ts, stdout := out.take 1000,
        stderr := err.take 1000, success := false })
  | .noUrl out err =>
    (none, appendLog logs
      { video_id := vid, timestamp := ts, stdout := out.take 1000,
        stderr := err.take 1000, success := false })
  | .ok out err res =>
    (some res, appendLog logs
      { video_id := vid, timestamp := ts, stdout := out.take 1000,
        stderr := err.take 1000, success := true })
  | .timedOut =>
    (none, appendLog logs
      { video_id := vid, timestamp := ts, stdout := "",
        stderr := "Timeout (45s exceeded)", success := false })
  | .raised msg =>
    (none, appendLog logs
      { video_id := vid, timestamp := ts, stdout := "",
        stderr := msg, success := false })

/-- What `ProxyServer.start` (simple_proxy.py:128-145) does when `bind`
raises: the blanket `except` prints the error and the `finally` closes the
listening socket, after which `start` returns normally. -/
structure StartOutcome where
  printedError : Option String
  listenerClosed : Bool
deriving DecidableEq

/-- `ProxyServer.start` as a function of the bind step's result. The
`.ok` case abstracts the accept loop, which also only ends through the
same `except`/`finally` pair. -/
def ProxyServer_start (bindResult : Except String Unit) : StartOutcome :=
  match bindResult with
  | .error e => { printedError := some ("[!] Error: " ++ e), listenerClosed := true }
  | .ok _ => { printedError := none, listenerClosed := true }

/-- The process exit status of `__main__` (simple_proxy.py:591-594):
`start` swallows every exception, so `proxy.start()` returns and the
interpreter exits with status 0 regardless of the bind result. -/
def mainExitStatus (bindResult : Except String Unit) : Nat :=
  match ProxyServer_start bindResult with
  | _ => 0

example : mainExitStatus (.error "[Errno 98] Address already in use") = 0 := by decide

theorem isDigit_ne_slash {c : Char} (h : c.isDigit = true) : c ≠ '/' := by
  rintro rfl; exact absurd h (by decide)

theorem isDigit_ne_colon {c : Char} (h : c.isDigit = true) : c ≠ ':' := by
  rintro rfl; exact absurd h (by decide)

theorem isDigit_ne_space {c : Char} (h : c.isDigit = true) : c ≠ ' ' := by
  rintro rfl; exact absurd h (by decide)

theorem findSub_char_append (c : Char) (l1 l2 : List Char)
    (h : ∀ x ∈ l1, x ≠ c) :
    findSub [c] (l1 ++ l2) = (findSub [c] l2).map (· + l1.length) := by
  induction l1 with
  | nil =>
    simp only [List.nil_append, List.length_nil]
    cases findSub [c] l2 <;> simp
  | cons a t ih =>
    have ha : a ≠ c := h a (List.mem_cons_self a t)
    have ht : ∀ x ∈ t, x ≠ c := fun x hx => h x (List.mem_cons_of_mem a hx)
    have hcond : beginsWith [c] (a :: (t ++ l2)) = false := by
      simp [beginsWith, beq_eq_false_iff_ne]
      exact fun he => ha he.symm
    rw [List.cons_append,
      show findSub [c] (a :: (t ++ l2)) = (findSub [c] (t ++ l2)).map (· + 1) from by
        simp [findSub, hcond],
      ih ht]
    cases findSub [c] l2 <;> simp [Nat.add_assoc]

theorem findSub_char_here (c : Char) (l1 l2 : List Char)
    (h : ∀ x ∈ l1, x ≠ c) :
    findSub [c] (l1 ++ c :: l2) = some l1.length := by
  rw [findSub_char_append c l1 _ h]
  simp [findSub, beginsWith]

theorem findSub_char_none (c : Char) (l : List Char)
    (h : ∀ x ∈ l, x ≠ c) :
    findSub [c] l = none := by
  have := findSub_char_append c l [] h
  rw [List.append_nil] at this
  simpa [findSub] using this

theorem findSub_cons_none (c : Char) (p l : List Char)
    (h : ∀ x ∈ l, x ≠ c) :
    findSub (c :: p) l = none := by
  induction l with
  | nil => simp [findSub, beginsWith]
  | cons a t ih =>
    have ha : (c == a) = false := by
      have : a ≠ c := h a (List.mem_cons_self a t)
      simp [beq_eq_false_iff_ne]
      exact fun he => this he.symm
    simp [findSub, beginsWith, ha, ih (fun x hx => h x (List.mem_cons_of_mem a hx))]

theorem findSub_step_neg (pat : List Char) (a : Char) (rest : List Char)
    (h : beginsWith pat (a :: rest) = false) :
    findSub pat (a :: rest) = (findSub pat rest).map (· + 1) := by
  simp [findSub, h]

theorem findSub_scheme_none (host portStr : List Char)
    (hh : ∀ x ∈ host, x ≠ ':')
    (hp : ∀ x ∈ portStr, x.isDigit = true) :
    findSub schemeMark (host ++ ':' :: portStr) = none := by
  induction host with
  | nil =>
    simp only [List.nil_append]
    cases portStr with
    | nil => decide
    | cons d ds =>
      have hd : ('/' == d) = false := by
        simp [beq_eq_false_iff_ne]
        exact fun he => isDigit_ne_slash (hp d (List.mem_cons_self d ds)) he.symm
      have hrest : findSub schemeMark (d :: ds) = none :=
        findSub_cons_none ':' ['/', '/'] (d :: ds)
          (fun x hx => isDigit_ne_colon (hp x hx))
      have hcond : beginsWith schemeMark (':' :: d :: ds) = false := by
        simp [schemeMark, beginsWith, hd]
      rw [findSub_step_neg _ _ _ hcond, hrest]
      rfl
  | cons a t ih =>
    have ha : a ≠ ':' := hh a (List.mem_cons_self a t)
    have hba : (':' == a) = false := by
      simp [beq_eq_false_iff_ne]
      exact fun he => ha he.symm
    have hcond : beginsWith schemeMark (a :: (t ++ ':' :: portStr)) = false := by
      simp [schemeMark, beginsWith, hba]
    rw [List.cons_append, findSub_step_neg _ _ _ hcond,
      ih (fun x hx => hh x (List.mem_cons_of_mem a hx))]
    rfl

theorem extract_address_scheme (t : List Char) :
    extract_address ("http://".toList ++ t) = parse_host_port t := rfl

theorem splitOnCharAux_sep (c : Char) (w l acc : List Char)
    (hw : ∀ x ∈ w, x ≠ c) :
    splitOnCharAux c (w ++ c :: l) acc = (acc.reverse ++ w) :: splitOnChar c l := by
  induction w generalizing acc with
  | nil => simp [splitOnCharAux, splitOnChar]
  | cons a t ih =>
    have ha : a ≠ c := hw a (List.mem_cons_self a t)
    simp only [List.cons_append, splitOnCharAux, if_neg ha, List.append_eq]
    rw [ih (a :: acc) (fun x hx => hw x (List.mem_cons_of_mem a hx))]
    simp

theorem splitOnChar_sep (c : Char) (w l : List Char)
    (hw : ∀ x ∈ w, x ≠ c) :
    splitOnChar c (w ++ c :: l) = w :: splitOnChar c l := by
  simpa [splitOnChar] using splitOnCharAux_sep c w l [] hw

theorem splitOnCharAux_noSep (c : Char) (w acc : List Char)
    (hw : ∀ x ∈ w, x ≠ c) :
    splitOnCharAux c w acc = [acc.reverse ++ w] := by
  induction w generalizing acc with
  | nil => simp [splitOnCharAux]
  | cons a t ih =>
    have ha : a ≠ c := hw a (List.mem_cons_self a t)
    simp only [splitOnCharAux, if_neg ha]
    rw [ih (a :: acc) (fun x hx => hw x (List.mem_cons_of_mem a hx))]
    simp

theorem splitOnChar_noSep (c : Char) (w : List Char)
    (hw : ∀ x ∈ w, x ≠ c) :
    splitOnChar c w = [w] := by
  simpa [splitOnChar] using splitOnCharAux_noSep c w [] hw

theorem field1_two_fields (w u rest : List Char)
    (hw : ∀ x ∈ w, x ≠ ' ') (hu : ∀ x ∈ u, x ≠ ' ') :
    field1 (w ++ ' ' :: (u ++ ' ' :: rest)) = some u := by
  rw [field1, splitOnChar_sep ' ' w _ hw, splitOnChar_sep ' ' u _ hu]
  rfl

theorem parse_host_port_hostport (host portStr : List Char) (v : Int)
    (hh : ∀ x ∈ host, x ≠ ':' ∧ x ≠ '/')
    (hp : ∀ x ∈ portStr, x.isDigit = true)
    (hv : pyInt portStr = some v) :
    parse_host_port (host ++ ':' :: portStr) = some (host, v) := by
  have hc : findSub [':'] (host ++ ':' :: portStr) = some host.length :=
    findSub_char_here ':' host portStr (fun x hx => (hh x hx).1)
  have hs : findSub ['/'] (host ++ ':' :: portStr) = none := by
    apply findSub_char_none
    intro x hx
    rcases List.mem_append.mp hx with h1 | h1
    · exact (hh x h1).2
    · rcases List.mem_cons.mp h1 with rfl | h2
      · decide
      · exact isDigit_ne_slash (hp x h2)
  have hlen : (host ++ ':' :: portStr).length = host.length + portStr.length + 1 := by
    simp [List.length_append]
    omega
  have hdrop : (host ++ ':' :: portStr).drop (host.length + 1) = portStr := by
    have hsh : host ++ ':' :: portStr = (host ++ [':']) ++ portStr := by simp
    have hl : (host ++ [':']).length = host.length + 1 := by simp
    rw [hsh, ← hl, List.drop_left]
  have htake : (host ++ ':' :: portStr).take host.length = host :=
    List.take_left host (':' :: portStr)
  simp only [parse_host_port, hc, hs, hlen]
  rw [if_neg (by omega)]
  have harith : host.length + portStr.length + 1 - host.length - 1 = portStr.length := by
    omega
  rw [harith, hdrop, List.take_length, hv, htake]

theorem parse_host_port_portpath (host portStr path : List Char) (v : Int)
    (hh : ∀ x ∈ host, x ≠ ':' ∧ x ≠ '/')
    (hp : ∀ x ∈ portStr, x.isDigit = true)
    (hv : pyInt portStr = some v) :
    parse_host_port (host ++ ':' :: (portStr ++ '/' :: path)) = some (host, v) := by
  have hc : findSub [':'] (host ++ ':' :: (portStr ++ '/' :: path)) = some host.length :=
    findSub_char_here ':' host _ (fun x hx => (hh x hx).1)
  have hs : findSub ['/'] (host ++ ':' :: (portStr ++ '/' :: path))
      = some (host.length + 1 + portStr.length) := by
    have hsh : host ++ ':' :: (portStr ++ '/' :: path)
        = (host ++ ':' :: portStr) ++ '/' :: path := by simp
    have hl : (host ++ ':' :: portStr).length = host.length + 1 + portStr.length := by
      simp [List.length_append]
      omega
    rw [hsh, findSub_char_here '/' (host ++ ':' :: portStr) path, hl]
    intro x hx
    rcases List.mem_append.mp hx with h1 | h1
    · exact (hh x h1).2
    · rcases List.mem_cons.mp h1 with rfl | h2
      · decide
      · exact isDigit_ne_slash (hp x h2)
  have hdrop : (host ++ ':' :: (portStr ++ '/' :: path)).drop (host.length + 1)
      = portStr ++ '/' :: path := by
    have hsh : host ++ ':' :: (portStr ++ '/' :: path)
        = (host ++ [':']) ++ (portStr ++ '/' :: path) := by simp
    have hl : (host ++ [':']).length = host.length + 1 := by simp
    rw [hsh, ← hl, List.drop_left]
  have htake : (host ++ ':' :: (portStr ++ '/' :: path)).take host.length = host :=
    List.take_left host _
  simp only [parse_host_port, hc, hs]
  rw [if_neg (by omega)]
  have harith : host.length + 1 + portStr.length - host.length - 1 = portStr.length := by
    omega
  rw [harith, hdrop]
  rw [show (portStr ++ '/' :: path).take portStr.length = portStr from
    List.take_left portStr _]
  rw [hv, htake]

theorem forward_data_data (s : Side) (d : List Char) (rest : List RelayEvent) :
    forward_data (.data s d :: rest)
      = (.send s.other d :: (forward_data rest).1, (forward_data rest).2) := by
  cases h : forward_data rest with
  | mk ops e => simp [forward_data, h]

theorem close_not_in_forward (evs : List RelayEvent) (s : Side) :
    SockOp.close s ∉ (forward_data evs).1 := by
  induction evs with
  | nil => simp [forward_data]
  | cons e rest ih =>
    cases e with
    | timeout => simp [forward_data]
    | eof s2 => simp [forward_data]
    | ioError => simp [forward_data]
    | data src d =>
      rw [forward_data_data]
      simp [ih]

theorem forward_exit_eof (pre : List RelayEvent) (s : Side) (rest : List RelayEvent)
    (h : ∀ x ∈ pre, isData x = true) :
    (forward_data (pre ++ .eof s :: rest)).2 = some .peerClosed := by
  induction pre with
  | nil => simp [forward_data]
  | cons e t ih =>
    have he : isData e = true := h e (List.mem_cons_self e t)
    cases e with
    | data src d =>
      rw [List.cons_append, forward_data_data]
      exact ih (fun x hx => h x (List.mem_cons_of_mem _ hx))
    | timeout => exact absurd he (by simp [isData])
    | eof s2 => exact absurd he (by simp [isData])
    | ioError => exact absurd he (by simp [isData])

theorem forward_exit_timeout (pre rest : List RelayEvent)
    (h : ∀ x ∈ pre, isData x = true) :
    (forward_data (pre ++ .timeout :: rest)).2 = some .idleTimeout := by
  induction pre with
  | nil => simp [forward_data]
  | cons e t ih =>
    have he : isData e = true := h e (List.mem_cons_self e t)
    cases e with
    | data src d =>
      rw [List.cons_append, forward_data_data]
      exact ih (fun x hx => h x (List.mem_cons_of_mem _ hx))
    | timeout => exact absurd he (by simp [isData])
    | eof s2 => exact absurd he (by simp [isData])
    | ioError => exact absurd he (by simp [isData])

theorem forward_exit_ioError (pre rest : List RelayEvent)
    (h : ∀ x ∈ pre, isData x = true) :
    (forward_data (pre ++ .ioError :: rest)).2 = some .ioFailure := by
  induction pre with
  | nil => simp [forward_data]
  | cons e t ih =>
    have he : isData e = true := h e (List.mem_cons_self e t)
    cases e with
    | data src d =>
      rw [List.cons_append, forward_data_data]
      exact ih (fun x hx => h x (List.mem_cons_of_mem _ hx))
    | timeout => exact absurd he (by simp [isData])
    | eof s2 => exact absurd he (by simp [isData])
    | ioError => exact absurd he (by simp [isData])

theorem forward_data_delivered (evs : List RelayEvent) (s : Side) :
    deliveredTo s.other (forward_data evs).1 = chunksFrom s (evs.takeWhile isData) := by
  induction evs with
  | nil => simp [forward_data, deliveredTo, chunksFrom]
  | cons e rest ih =>
    cases e with
    | timeout => simp [forward_data, deliveredTo, chunksFrom, List.takeWhile, isData]
    | eof s2 => simp [forward_data, deliveredTo, chunksFrom, List.takeWhile, isData]
    | ioError => simp [forward_data, deliveredTo, chunksFrom, List.takeWhile, isData]
    | data src d =>
      rw [forward_data_data]
      cases s <;> cases src <;>
        simp [deliveredTo, chunksFrom, Side.other, List.takeWhile, isData] <;>
        simpa [Side.other] using ih

theorem beginsWith_mem (pat : List Char) :
    ∀ s : List Char, beginsWith pat s = true → ∀ c ∈ pat, c ∈ s := by
  induction pat with
  | nil => intro s _ c hc; simp at hc
  | cons p ps ih =>
    intro s h c hc
    cases s with
    | nil => simp [beginsWith] at h
    | cons a t =>
      simp only [beginsWith, Bool.and_eq_true, beq_iff_eq] at h
      rcases List.mem_cons.mp hc with rfl | hc2
      · simp [h.1]
      · exact List.mem_cons_of_mem a (ih t h.2 c hc2)

theorem findSub_mem (pat : List Char) :
    ∀ (s : List Char) (i : Nat), findSub pat s = some i → ∀ c ∈ pat, c ∈ s := by
  intro s
  induction s with
  | nil =>
    intro i h c hc
    cases pat with
    | nil => simp at hc
    | cons p ps => simp [findSub, beginsWith] at h
  | cons a t ih =>
    intro i h c hc
    by_cases hb : beginsWith pat (a :: t) = true
    · exact beginsWith_mem pat (a :: t) hb c hc
    · rw [findSub_step_neg _ _ _ (Bool.not_eq_true _ ▸ eq_false_of_ne_true hb)] at h
      cases hj : findSub pat t with
      | none => rw [hj] at h; simp at h
      | some j => exact List.mem_cons_of_mem a (ih j hj c hc)

theorem containsSub_of_missing_char (pat s : List Char) (c : Char)
    (hc : c ∈ pat) (hs : ∀ x ∈ s, x ≠ c) :
    containsSub pat s = false := by
  unfold containsSub
  cases hf : findSub pat s with
  | none => rfl
  | some i => exact absurd rfl (hs c (findSub_mem pat s i hf c hc))

theorem splitOnCharAux_ne_nil (c : Char) :
    ∀ (l acc : List Char), splitOnCharAux c l acc ≠ [] := by
  intro l
  induction l with
  | nil => intro acc; simp [splitOnCharAux]
  | cons a t ih =>
    intro acc
    by_cases ha : a = c
    · simp [splitOnCharAux, ha]
    · simpa [splitOnCharAux, ha] using ih (a :: acc)

theorem dropWhile_head_false (p : Char → Bool) :
    ∀ (l : List Char) (b : Char) (rest : List Char),
      l.dropWhile p = b :: rest → p b = false := by
  intro l
  induction l with
  | nil => intro b rest h; simp [List.dropWhile] at h
  | cons a t ih =>
    intro b rest h
    by_cases hp : p a = true
    · rw [List.dropWhile_cons, if_pos hp] at h
      exact ih b rest h
    · rw [List.dropWhile_cons, if_neg hp] at h
      cases h
      simpa using hp

theorem field1_isSome_of_space (l : List Char) (h : ' ' ∈ l) :
    (field1 l).isSome = true := by
  have hd := List.takeWhile_append_dropWhile (p := (· != ' ')) (l := l)
  have hne : l.dropWhile (· != ' ') ≠ [] := by
    intro hnil
    rw [List.dropWhile_eq_nil_iff] at hnil
    exact absurd (hnil ' ' h) (by simp)
  cases hdw : l.dropWhile (· != ' ') with
  | nil => exact absurd hdw hne
  | cons b rest =>
    have hb : b = ' ' := by
      have := dropWhile_head_false (· != ' ') l b rest hdw
      simpa using this
    subst hb
    have hw : ∀ x ∈ l.takeWhile (· != ' '), x ≠ ' ' := by
      intro x hx
      simpa using List.mem_takeWhile_imp hx
    set w := l.takeWhile (· != ' ') with hwdef
    have hl : l = w ++ ' ' :: rest := by
      rw [← hd, hdw]
    rw [hl, field1, splitOnChar_sep ' ' _ _ hw]
    cases hs : splitOnChar ' ' rest with
    | nil => exact absurd hs (splitOnCharAux_ne_nil ' ' rest [])
    | cons u us => simp [List.get?]

theorem field1_none_no_space (l : List Char) (h : field1 l = none) :
    ∀ x ∈ l, x ≠ ' ' := by
  intro x hx he
  subst he
  have := field1_isSome_of_space l hx
  rw [h] at this
  simp at this

/-- Claim C2: for every request line of the form `CONNECT host:port ...`, and
for absolute URIs with an explicit port such as `GET http://host:port/path ...`,
the address resolver extracts exactly the host before the `':'` and the digits
between `':'` and `'/'` (or end of string) as the integer port; in particular
`CONNECT example.com:443 ...` yields `("example.com", 443)` and
`GET http://example.com:8080/path ...` yields `("example.com", 8080)`. -/
theorem resolver_extracts_explicit_port :
    (∀ (host portStr tail : List Char) (v : Int),
      (∀ x ∈ host, x ≠ ':' ∧ x ≠ '/' ∧ x ≠ ' ') →
      (∀ x ∈ portStr, x.isDigit = true) →
      pyInt portStr = some v → 1 ≤ v → v ≤ 65535 →
      resolve_target ("CONNECT".toList ++ ' ' :: ((host ++ ':' :: portStr) ++ ' ' :: tail))
        = some (host, v)) ∧
    (∀ (host portStr path tail : List Char) (v : Int),
      (∀ x ∈ host, x ≠ ':' ∧ x ≠ '/' ∧ x ≠ ' ') →
      (∀ x ∈ portStr, x.isDigit = true) →
      (∀ x ∈ path, x ≠ ' ') →
      pyInt portStr = some v → 1 ≤ v → v ≤ 65535 →
      resolve_target ("GET".toList ++ ' ' ::
          (("http://".toList ++ (host ++ ':' :: (portStr ++ '/' :: path))) ++ ' ' :: tail))
        = some (host, v)) ∧
    resolve_target "CONNECT example.com:443 HTTP/1.1".toList
      = some ("example.com".toList, 443) ∧
    resolve_target "GET http://example.com:8080/path HTTP/1.1".toList
      = some ("example.com".toList, 8080) := by
  refine ⟨?_, ?_, by decide, by decide⟩
  · intro host portStr tail v hh hp hv _ _
    have hu : ∀ x ∈ host ++ ':' :: portStr, x ≠ ' ' := by
      intro x hx
      rcases List.mem_append.mp hx with h1 | h1
      · exact (hh x h1).2.2
      · rcases List.mem_cons.mp h1 with rfl | h2
        · decide
        · exact isDigit_ne_space (hp x h2)
    have hf := field1_two_fields "CONNECT".toList (host ++ ':' :: portStr) tail
      (by decide) hu
    have hsch := findSub_scheme_none host portStr (fun x hx => (hh x hx).1) hp
    simp only [resolve_target, hf, extract_address, hsch]
    exact parse_host_port_hostport host portStr v
      (fun x hx => ⟨(hh x hx).1, (hh x hx).2.1⟩) hp hv
  · intro host portStr path tail v hh hp hpath hv _ _
    have hu : ∀ x ∈ "http://".toList ++ (host ++ ':' :: (portStr ++ '/' :: path)),
        x ≠ ' ' := by
      intro x hx
      rcases List.mem_append.mp hx with h1 | h1
      · exact (by decide : ∀ y ∈ "http://".toList, y ≠ ' ') x h1
      · rcases List.mem_append.mp h1 with h2 | h2
        · exact (hh x h2).2.2
        · rcases List.mem_cons.mp h2 with rfl | h3
          · decide
          · rcases List.mem_append.mp h3 with h4 | h4
            · exact isDigit_ne_space (hp x h4)
            · rcases List.mem_cons.mp h4 with rfl | h5
              · decide
              · exact hpath x h5
    have hf := field1_two_fields "GET".toList
      ("http://".toList ++ (host ++ ':' :: (portStr ++ '/' :: path))) tail
      (by decide) hu
    simp only [resolve_target, hf, extract_address_scheme]
    exact parse_host_port_portpath host portStr path v
      (fun x hx => ⟨(hh x hx).1, (hh x hx).2.1⟩) hp hv

/-- Witness for C2: the general CONNECT clause applied at a concrete line. -/
theorem resolver_extracts_explicit_port_witness :
    (∀ x ∈ "proxy.test".toList, x ≠ ':' ∧ x ≠ '/' ∧ x ≠ ' ') ∧
    resolve_target ("CONNECT".toList ++ ' ' ::
        (("proxy.test".toList ++ ':' :: "8443".toList) ++ ' ' :: "HTTP/1.1".toList))
      = some ("proxy.test".toList, 8443) :=
  ⟨by decide, resolver_extracts_explicit_port.1 "proxy.test".toList "8443".toList
    "HTTP/1.1".toList 8443 (by decide) (by decide) (by decide) (by decide) (by decide)⟩

/-- Claim C3: for every request URL whose scheme-stripped remainder has no `':'`
before its first `'/'`, the resolver returns the text before the first `'/'` as
host with port defaulting to 80; with neither `':'` nor `'/'` it returns the
whole remainder as host with port 80; in particular
`GET http://example.com/path ...` yields `("example.com", 80)`. -/
theorem resolver_defaults_port_80 :
    (∀ (temp : List Char) (ws : Nat),
      findSub ['/'] temp = some ws →
      (findSub [':'] temp = none ∨ ∃ pp, findSub [':'] temp = some pp ∧ ws < pp) →
      parse_host_port temp = some (temp.take ws, 80)) ∧
    (∀ temp : List Char,
      findSub [':'] temp = none → findSub ['/'] temp = none →
      parse_host_port temp = some (temp, 80)) ∧
    (∀ t : List Char, extract_address ("http://".toList ++ t) = parse_host_port t) ∧
    resolve_target "GET http://example.com/path HTTP/1.1".toList
      = some ("example.com".toList, 80) := by
  refine ⟨?_, ?_, extract_address_scheme, by decide⟩
  · intro temp ws hws hcol
    rcases hcol with hnone | ⟨pp, hpp, hlt⟩
    · simp only [parse_host_port, hws, hnone]
    · simp only [parse_host_port, hws, hpp]
      rw [if_pos hlt]
  · intro temp h1 h2
    simp only [parse_host_port, h1, h2, List.take_length]

/-- Witness for C3: the no-colon-before-slash clause applied concretely. -/
theorem resolver_defaults_port_80_witness :
    findSub ['/'] "example.com/path".toList = some 11 ∧
    parse_host_port "example.com/path".toList
      = some ("example.com/path".toList.take 11, 80) :=
  ⟨by decide, resolver_defaults_port_80.1 "example.com/path".toList 11
    (by decide) (Or.inl (by decide))⟩

/-- Claim C1 (amended): for every request whose first line contains
`GET /health` or `GET / HTTP` (and none of the application-endpoint markers
checked first), and whose scanned `Host` header is matched by the source's
test — a substring match against `localhost`, `127.`, the hard-coded `:2082`
(not the default bind port 6178), or the `pgwiz` proxy domains — the handler
sends exactly the `200 OK` `text/html` status-page bytes `healthResponse`,
closes the inbound socket, and attempts no outbound dial. -/
theorem health_check_served_html :
    ∀ request : List Char, request ≠ [] →
      containsSub "GET /api/stream/".toList (firstLineOf request) = false →
      containsSub "GET /stream".toList (firstLineOf request) = false →
      containsSub "GET /ytdlp".toList (firstLineOf request) = false →
      (containsSub "GET /health".toList (firstLineOf request) = true ∨
        containsSub "GET / HTTP".toList (firstLineOf request) = true) →
      hostMatch (scanHostHeader request) = true →
      handleClient request = .health (scanHostHeader request) ∧
      ∀ (logContent : String) (dialOk : Bool) (evs : List RelayEvent),
        connectionOps request logContent dialOk evs
          = [.send .client (healthResponse logContent).toList, .close .client] ∧
        ∀ (h : List Char) (p : Int),
          SockOp.dial h p ∉ connectionOps request logContent dialOk evs := by
  intro request hne h1 h2 h3 h4 h5
  have hmain : handleClient request = .health (scanHostHeader request) := by
    unfold handleClient
    rw [if_neg hne, if_neg (by rw [h1]; simp), if_neg (by rw [h2]; simp),
      if_neg (by rw [h3]; simp)]
    rcases h4 with h4 | h4 <;>
      rw [if_pos (by simp only [h4, h5, Bool.true_or, Bool.or_true,
        Bool.true_and, Bool.and_true])]
  refine ⟨hmain, fun lc dOk evs => ⟨by simp [connectionOps, hmain], ?_⟩⟩
  intro h p hmem
  simp [connectionOps, hmain] at hmem

set_option maxRecDepth 16384 in
/-- Counterexample to C1 as stated: at the very request the claim describes,
the handler's response is the `text/html` status page, not the exact
`text/plain` bytes `HTTP/1.1 200 OK\r\nContent-Type: text/plain\r\nConnection:
close\r\n\r\nProxy Server is Alive` the claim requires. -/
theorem health_check_not_plain_text :
    handleClient "GET /health HTTP/1.1\r\nHost: localhost:6178\r\n\r\n".toList
      = .health "localhost:6178".toList ∧
    connectionOps "GET /health HTTP/1.1\r\nHost: localhost:6178\r\n\r\n".toList
        "(No logs yet)" true []
      = [.send .client (healthResponse "(No logs yet)").toList, .close .client] ∧
    healthResponse "(No logs yet)"
      ≠ "HTTP/1.1 200 OK\r\nContent-Type: text/plain\r\nConnection: close\r\n\r\nProxy Server is Alive" := by
  refine ⟨by decide, by decide, ?_⟩
  intro h
  exact absurd (congrArg String.length h) (by decide)

/-- Witness for C1 (amended): a root-path probe with a loopback Host header. -/
theorem health_check_served_html_witness :
    containsSub "GET / HTTP".toList
      (firstLineOf "GET / HTTP/1.1\r\nHost: 127.0.0.1\r\n\r\n".toList) = true ∧
    handleClient "GET / HTTP/1.1\r\nHost: 127.0.0.1\r\n\r\n".toList
      = .health "127.0.0.1".toList :=
  ⟨by decide,
    ((health_check_served_html "GET / HTTP/1.1\r\nHost: 127.0.0.1\r\n\r\n".toList
      (by decide) (by decide) (by decide) (by decide) (Or.inr (by decide))
      (by decide)).1).trans (by decide)⟩

/-- Claim C4 (amended): among connections reaching the generic proxy dispatch,
the tunnel-relay path is taken if and only if the bytes `CONNECT` occur
anywhere in the request line — a substring test, not a check that the method
is `CONNECT`; on that path, after (and only after) a successful outbound
dial, the proxy sends the client exactly
`HTTP/1.1 200 Connection Established\r\n\r\n` before any relayed bytes, and a
failed dial sends nothing. -/
theorem tunnel_iff_connect_in_line :
    (∀ (request host : List Char) (port : Int),
      handleClient request = .tunnel host port →
      containsSub "CONNECT".toList (firstLineOf request) = true) ∧
    (∀ (request host : List Char) (port : Int),
      handleClient request = .httpForward host port →
      containsSub "CONNECT".toList (firstLineOf request) = false) ∧
    (∀ (host : List Char) (port : Int) (evs : List RelayEvent),
      handle_https_tunnel host port true evs
        = .dial host port :: .send .client connectEstablished.toList
            :: (forward_data evs).1) ∧
    (∀ (host : List Char) (port : Int) (evs : List RelayEvent),
      handle_https_tunnel host port false evs = [.dial host port, .close .client]) := by
  refine ⟨?_, ?_, fun h p evs => by simp [handle_https_tunnel],
    fun h p evs => by simp [handle_https_tunnel]⟩
  · intro request host port h
    unfold handleClient at h
    split at h
    · exact absurd h (by simp)
    split at h
    · split at h
      · exact absurd h (by simp)
      · split at h <;> exact absurd h (by simp)
    split at h
    · split at h <;> exact absurd h (by simp)
    split at h
    · split at h <;> exact absurd h (by simp)
    split at h
    · exact absurd h (by simp)
    split at h
    · exact absurd h (by simp)
    split at h
    · assumption
    · exact absurd h (by simp)
  · intro request host port h
    unfold handleClient at h
    split at h
    · exact absurd h (by simp)
    split at h
    · split at h
      · exact absurd h (by simp)
      · split at h <;> exact absurd h (by simp)
    split at h
    · split at h <;> exact absurd h (by simp)
    split at h
    · split at h <;> exact absurd h (by simp)
    split at h
    · exact absurd h (by simp)
    split at h
    · exact absurd h (by simp)
    split at h
    · exact absurd h (by simp)
    · simp_all

/-- Counterexample to C4 as stated: a request whose method is `GET`, not
`CONNECT`, still takes the tunnel path, because the dispatch tests
`b'CONNECT' in first_line` as a substring. -/
theorem get_connect_request_tunnels :
    handleClient "GET /CONNECT HTTP/1.1\r\n\r\n".toList = .tunnel [] 80 ∧
    (splitOnChar ' ' (firstLineOf "GET /CONNECT HTTP/1.1\r\n\r\n".toList)).headD []
      = "GET".toList := by decide

/-- Witness for C4 (amended): a genuine CONNECT line takes the tunnel path
and contains the `CONNECT` bytes. -/
theorem tunnel_iff_connect_in_line_witness :
    handleClient "CONNECT example.com:443 HTTP/1.1\r\n\r\n".toList
      = .tunnel "example.com".toList 443 ∧
    containsSub "CONNECT".toList
      (firstLineOf "CONNECT example.com:443 HTTP/1.1\r\n\r\n".toList) = true :=
  ⟨by decide,
    tunnel_iff_connect_in_line.1 "CONNECT example.com:443 HTTP/1.1\r\n\r\n".toList
      "example.com".toList 443 (by decide)⟩

/-- Claim C5 (amended): the relay terminates when a read returns zero bytes on
either socket, when a read or write fails, or when the 60-second readiness
wait expires with neither socket readable; however, on termination the relay
itself closes neither socket — `forward_data` performs no close on any path,
and the tunnel wrapper closes (only the inbound socket) solely on a failed
dial, so cleanup of the pair is left to interpreter-level resource
finalization when the handler thread ends. -/
theorem relay_exit_conditions_no_close :
    (∀ (pre : List RelayEvent) (s : Side) (rest : List RelayEvent),
      (∀ x ∈ pre, isData x = true) →
      (forward_data (pre ++ .eof s :: rest)).2 = some .peerClosed) ∧
    (∀ pre rest : List RelayEvent, (∀ x ∈ pre, isData x = true) →
      (forward_data (pre ++ .timeout :: rest)).2 = some .idleTimeout) ∧
    (∀ pre rest : List RelayEvent, (∀ x ∈ pre, isData x = true) →
      (forward_data (pre ++ .ioError :: rest)).2 = some .ioFailure) ∧
    (∀ (evs : List RelayEvent) (s : Side), SockOp.close s ∉ (forward_data evs).1) ∧
    (∀ (host : List Char) (port : Int) (evs : List RelayEvent) (s : Side),
      SockOp.close s ∉ handle_https_tunnel host port true evs) := by
  refine ⟨forward_exit_eof, forward_exit_timeout, forward_exit_ioError,
    close_not_in_forward, ?_⟩
  intro host port evs s hmem
  have hm : SockOp.close s ∈ (forward_data evs).1 := by
    simpa [handle_https_tunnel] using hmem
  exact close_not_in_forward evs s hm

/-- Counterexample to C5 as stated: a tunnel relay that terminates because the
client closed (a zero-byte read) performs no close of either socket — the
claim's "both the inbound and outbound sockets are closed" does not hold of
the code's explicit operations. -/
theorem relay_eof_closes_nothing :
    (forward_data [RelayEvent.eof .client]).2 = some .peerClosed ∧
    handle_https_tunnel "example.com".toList 443 true [RelayEvent.eof .client]
      = [.dial "example.com".toList 443,
         .send .client connectEstablished.toList] ∧
    SockOp.close .client
        ∉ handle_https_tunnel "example.com".toList 443 true [RelayEvent.eof .client] ∧
    SockOp.close .remote
        ∉ handle_https_tunnel "example.com".toList 443 true [RelayEvent.eof .client] := by
  decide

/-- Witness for C5 (amended): the zero-byte-read clause at a concrete
schedule with one data exchange before the remote closes. -/
theorem relay_exit_conditions_no_close_witness :
    (∀ x ∈ [RelayEvent.data .client "ab".toList], isData x = true) ∧
    (forward_data ([RelayEvent.data .client "ab".toList]
        ++ RelayEvent.eof .remote :: [])).2 = some .peerClosed :=
  ⟨by decide,
    relay_exit_conditions_no_close.1 [RelayEvent.data .client "ab".toList]
      .remote [] (by decide)⟩

/-- Claim C6: every byte read from one socket of an established relay pair is
written verbatim and in order to the other socket — the bytes delivered to a
side equal the concatenation of the chunks the opposite peer produced before
the relay terminated — and on the plain-HTTP path the entire original raw
request bytes are written unmodified to the outbound socket before the relay
starts. -/
theorem relay_byte_identity :
    (∀ (evs : List RelayEvent) (s : Side),
      deliveredTo s.other (forward_data evs).1
        = chunksFrom s (evs.takeWhile isData)) ∧
    (∀ (request host : List Char) (port : Int) (evs : List RelayEvent),
      handle_http_request request host port true evs
        = .dial host port :: .send .remote request :: (forward_data evs).1) :=
  ⟨fun evs s => forward_data_delivered evs s,
   fun request host port evs => by simp [handle_http_request]⟩

/-- Claim C7: a malformed request line (missing the second space-delimited
field, or a port slice `int` cannot parse) and a failed outbound dial all
end with the inbound socket closed and no bytes sent to the client — no
error response and no `200` line — and, the handler being a pure
per-connection function, no other connection is affected. -/
theorem silent_close_on_malformed_or_dial_failure :
    (∀ request : List Char, request ≠ [] →
      field1 (firstLineOf request) = none →
      handleClient request = .parseClose ∧
      ∀ (lc : String) (dOk : Bool) (evs : List RelayEvent),
        connectionOps request lc dOk evs = [.close .client]) ∧
    (∀ request : List Char, request ≠ [] →
      containsSub "GET /api/stream/".toList (firstLineOf request) = false →
      containsSub "GET /stream".toList (firstLineOf request) = false →
      containsSub "GET /ytdlp".toList (firstLineOf request) = false →
      ((containsSub "GET /health".toList (firstLineOf request)
          || containsSub "GET / HTTP".toList (firstLineOf request))
        && hostMatch (scanHostHeader request)) = false →
      resolve_target (firstLineOf request) = none →
      handleClient request = .parseClose ∧
      ∀ (lc : String) (dOk : Bool) (evs : List RelayEvent),
        connectionOps request lc dOk evs = [.close .client]) ∧
    (∀ (host : List Char) (port : Int) (evs : List RelayEvent),
      handle_https_tunnel host port false evs = [.dial host port, .close .client] ∧
      ∀ d : List Char, SockOp.send .client d ∉ handle_https_tunnel host port false evs) ∧
    (∀ (request host : List Char) (port : Int) (evs : List RelayEvent),
      handle_http_request request host port false evs
        = [.dial host port, .close .client, .close .remote] ∧
      ∀ d : List Char,
        SockOp.send .client d ∉ handle_http_request request host port false evs) := by
  refine ⟨?_, ?_,
    fun host port evs => ⟨by simp [handle_https_tunnel],
      fun d => by simp [handle_https_tunnel]⟩,
    fun request host port evs => ⟨by simp [handle_http_request],
      fun d => by simp [handle_http_request]⟩⟩
  · intro request hne hf
    have hns : ∀ x ∈ firstLineOf request, x ≠ ' ' := field1_none_no_space _ hf
    have hc1 := containsSub_of_missing_char "GET /api/stream/".toList
      (firstLineOf request) ' ' (by decide) hns
    have hc2 := containsSub_of_missing_char "GET /stream".toList
      (firstLineOf request) ' ' (by decide) hns
    have hc3 := containsSub_of_missing_char "GET /ytdlp".toList
      (firstLineOf request) ' ' (by decide) hns
    have hc4 := containsSub_of_missing_char "GET /health".toList
      (firstLineOf request) ' ' (by decide) hns
    have hc5 := containsSub_of_missing_char "GET / HTTP".toList
      (firstLineOf request) ' ' (by decide) hns
    have hmain : handleClient request = .parseClose := by
      unfold handleClient
      rw [if_neg hne, if_neg (by rw [hc1]; simp), if_neg (by rw [hc2]; simp),
        if_neg (by rw [hc3]; simp),
        if_neg (by simp only [hc4, hc5, Bool.or_self, Bool.false_and]; simp)]
      simp only [resolve_target, hf]
    exact ⟨hmain, fun lc dOk evs => by simp [connectionOps, hmain]⟩
  · intro request hne h1 h2 h3 h4 hr
    have hmain : handleClient request = .parseClose := by
      unfold handleClient
      rw [if_neg hne, if_neg (by rw [h1]; simp), if_neg (by rw [h2]; simp),
        if_neg (by rw [h3]; simp), if_neg (by rw [h4]; simp)]
      simp only [hr]
    exact ⟨hmain, fun lc dOk evs => by simp [connectionOps, hmain]⟩

/-- Witness for C7: an unparsable-port CONNECT line is silently closed. -/
theorem silent_close_witness :
    resolve_target (firstLineOf "CONNECT example.com:abc HTTP/1.1\r\n\r\n".toList)
      = none ∧
    handleClient "CONNECT example.com:abc HTTP/1.1\r\n\r\n".toList = .parseClose :=
  ⟨by decide,
    (silent_close_on_malformed_or_dial_failure.2.1
      "CONNECT example.com:abc HTTP/1.1\r\n\r\n".toList (by decide) (by decide)
      (by decide) (by decide) (by decide) (by decide)).1⟩

/-- Claim C8 (amended): when binding the listening socket fails at startup,
the blanket `except` in `ProxyServer.start` catches the exception, prints
the error, lets the `finally` close the listener, and returns normally, so
the process exits with status 0 — it does not fail fast with a non-zero
status, and no condition produces a non-zero exit. -/
theorem bind_failure_swallowed :
    ∀ msg : String,
      ProxyServer_start (.error msg)
        = { printedError := some ("[!] Error: " ++ msg), listenerClosed := true } ∧
      mainExitStatus (.error msg) = 0 :=
  fun _ => ⟨rfl, rfl⟩

/-- Counterexample to C8 as stated: at a concrete bind failure the process
exit status is 0, not non-zero. -/
theorem bind_failure_exits_zero :
    mainExitStatus (.error "[Errno 98] Address already in use") = 0 ∧
    ProxyServer_start (.error "[Errno 98] Address already in use")
      = { printedError := some "[!] Error: [Errno 98] Address already in use",
          listenerClosed := true } := by
  exact ⟨rfl, by decide⟩

/-- Whether a dispatch outcome is one of the three application endpoints
(or the silent close their own exception handlers perform), i.e. a locally
handled request that never reaches the generic proxy paths. -/
def isEndpointAction : ClientAction → Bool
  | .apiStream _ => true
  | .streamRelay _ => true
  | .ytdlpServe _ => true
  | .branchClose => true
  | _ => false

/-- Claim C9 (amended): every request whose first line contains
`GET /api/stream/`, `GET /stream`, or `GET /ytdlp` is handled inside the
corresponding endpoint branch — serving a local response or, when parameter
extraction in the branch raises, closing silently — and returns before the
generic address-extraction and CONNECT/plain-HTTP dispatch is reached; such
requests are never forwarded through the transparent proxy path. -/
theorem endpoints_never_proxied :
    ∀ request : List Char, request ≠ [] →
      (containsSub "GET /api/stream/".toList (firstLineOf request) = true ∨
       containsSub "GET /stream".toList (firstLineOf request) = true ∨
       containsSub "GET /ytdlp".toList (firstLineOf request) = true) →
      isEndpointAction (handleClient request) = true := by
  intro request hne hsub
  unfold handleClient
  rw [if_neg hne]
  by_cases hc1 : containsSub "GET /api/stream/".toList (firstLineOf request) = true
  · rw [if_pos hc1]
    split
    · rfl
    · split <;> rfl
  rw [if_neg hc1]
  by_cases hc2 : containsSub "GET /stream".toList (firstLineOf request) = true
  · rw [if_pos hc2]
    split <;> rfl
  rw [if_neg hc2]
  by_cases hc3 : containsSub "GET /ytdlp".toList (firstLineOf request) = true
  · rw [if_pos hc3]
    split <;> rfl
  rcases hsub with h | h | h
  exacts [absurd h hc1, absurd h hc2, absurd h hc3]

/-- Counterexample to C9 as stated: a request whose first line contains
`GET /api/stream/` outside its second field is closed without any response
bytes (the branch's `IndexError` handler), so the handler does not always
serve a local response — though it still never reaches the proxy path. -/
theorem api_substring_close_without_response :
    handleClient "PUT /x GET /api/stream/y HTTP/1.1\r\n\r\n".toList = .branchClose ∧
    connectionOps "PUT /x GET /api/stream/y HTTP/1.1\r\n\r\n".toList "" true []
      = [.close .client] := by
  decide

/-- Witness for C9 (amended): a `/ytdlp` request is classified as an
endpoint action. -/
theorem endpoints_never_proxied_witness :
    containsSub "GET /ytdlp".toList
      (firstLineOf "GET /ytdlp?id=abc HTTP/1.1\r\n\r\n".toList) = true ∧
    isEndpointAction (handleClient "GET /ytdlp?id=abc HTTP/1.1\r\n\r\n".toList) = true :=
  ⟨by decide,
    endpoints_never_proxied "GET /ytdlp?id=abc HTTP/1.1\r\n\r\n".toList
      (by decide) (Or.inr (Or.inr (by decide)))⟩

/-- Claim C10: every call to `extract_youtube_stream`, on every return path,
appends exactly one entry to the global `ytdlp_logs` list via the same
append-then-trim step, and that step keeps the list at no more than 10
entries, discarding the oldest entry when the bound would be exceeded. -/
theorem ytdlp_log_bounded :
    (∀ (vid ts : String) (o : ExtractOutcome) (logs : List YtLogEntry),
      ∃ e, (extract_youtube_stream vid ts o logs).2 = appendLog logs e) ∧
    (∀ (logs : List YtLogEntry) (e : YtLogEntry),
      logs.length ≤ 10 → (appendLog logs e).length ≤ 10) ∧
    (∀ (logs : List YtLogEntry) (e : YtLogEntry),
      logs.length < 10 → appendLog logs e = logs ++ [e]) ∧
    (∀ (logs : List YtLogEntry) (e : YtLogEntry),
      logs.length = 10 → appendLog logs e = logs.drop 1 ++ [e]) := by
  refine ⟨?_, ?_, ?_, ?_⟩
  · intro vid ts o logs
    cases o <;> exact ⟨_, rfl⟩
  · intro logs e h
    simp only [appendLog]
    split
    · simpa using h
    · rename_i hle
      simp only [List.length_append, List.length_cons, List.length_nil] at hle ⊢
      omega
  · intro logs e h
    simp only [appendLog]
    rw [if_neg]
    simp only [List.length_append, List.length_cons, List.length_nil]
    omega
  · intro logs e h
    simp only [appendLog]
    rw [if_pos]
    · cases logs with
      | nil => simp at h
      | cons a t => simp
    · simp only [List.length_append, List.length_cons, List.length_nil]
      omega

/-- Witness for C10: appending to a full 10-entry list drops the oldest. -/
theorem ytdlp_log_bounded_witness :
    (List.replicate 10 (YtLogEntry.mk "v" "t" "" "" false)).length = 10 ∧
    appendLog (List.replicate 10 (YtLogEntry.mk "v" "t" "" "" false))
        (YtLogEntry.mk "w" "u" "" "" true)
      = (List.replicate 10 (YtLogEntry.mk "v" "t" "" "" false)).drop 1
        ++ [YtLogEntry.mk "w" "u" "" "" true] :=
  ⟨by decide,
    ytdlp_log_bounded.2.2.2 _ _ (by decide)⟩
